import Mathlib

/-!
Verification of the `create-astro` scaffolding CLI.

The repository ships three implementations of the same pipeline:
* `src/dist/index.js`, first half — the single-template variant
  (exact-name cleanup lists);
* `src/dist/index.js`, second half — the multi-framework variant
  (glob-pattern cleanup, framework subtree selection);
* `src/unnamed/part_000` — a legacy TypeScript version of the
  single-template pipeline (no sanitizer, no cleanup engine, no
  yarn-to-npm install fallback, no trailing newline in the manifest
  rewrite).

Each JavaScript function is shallowly embedded below as an executable
Lean function.  External collaborators (the filesystem, `node-fetch`,
the `glob` library, `execSync`) are passed in as explicit outcome
parameters; the control flow between them is translated from the
source.  Machine strings are modelled as Lean `String`s, file contents
as byte lists (`List Nat`).
-/

namespace CreateAstro

/-! ## Character-list string helpers

JavaScript string primitives (`includes`, `replace` with a string
pattern, `startsWith`, `endsWith`) modelled on `List Char` so that all
definitions are structurally recursive and kernel-evaluable. -/

/-- JS `hay.includes(needle)`: substring containment. -/
def listIncludes (needle : List Char) : List Char → Bool
  | [] => needle.isEmpty
  | c :: rest => needle.isPrefixOf (c :: rest) || listIncludes needle rest

/-- JS `hay.replace(needle, repl)` with a *string* pattern: replaces only
the first occurrence, returns the string unchanged if absent. -/
def listReplaceFirst (needle repl : List Char) : List Char → List Char
  | [] => []
  | c :: rest =>
    if needle.isPrefixOf (c :: rest) then
      repl ++ (c :: rest).drop needle.length
    else
      c :: listReplaceFirst needle repl rest

/-- JS `s.includes(t)` on `String`. -/
def jsIncludes (hay needle : String) : Bool :=
  listIncludes needle.data hay.data

/-- JS `s.replace(t, r)` (first occurrence only) on `String`. -/
def jsReplaceFirst (hay needle repl : String) : String :=
  String.mk (listReplaceFirst needle.data repl.data hay.data)

/-- JS `s.startsWith(t)`. -/
def jsStartsWith (hay needle : String) : Bool :=
  needle.data.isPrefixOf hay.data

/-- JS `s.endsWith(t)`. -/
def jsEndsWith (hay needle : String) : Bool :=
  needle.data.isSuffixOf hay.data

/-! ## Project-name normalization (`toKebabCase`, `validateProjectName`)

Source (`src/dist/index.js` lines 315-325, identical in the second
variant lines 899-909 and in `src/unnamed/part_000` lines 141-146):

```
function toKebabCase(str) \x7b
    return str
        .replace(/([a-z])([A-Z])/g, '$1-$2')
        .replace(/[\s_]+/g, '-')
        .toLowerCase();
\x7d
function validateProjectName(name) \x7b
    const npmSafeRegex = /^[a-z0-9-]+$/;
    return npmSafeRegex.test(name) && !name.startsWith('-') && !name.endsWith('-');
\x7d
```
-/

/-- A character matched by the JS regex class `[\s_]`: ASCII whitespace
(space, tab, line feed, vertical tab, form feed, carriage return) or an
underscore.  (JS `\s` also matches Unicode spaces; the claims below only
involve ASCII input.) -/
def isSpaceOrUnderscore (c : Char) : Bool :=
  c = ' ' || c = '\t' || c = '\n' || c = '\x0b' || c = '\x0c' || c = '\r' || c = '_'

/-- First substitution of `toKebabCase`:
`/([a-z])([A-Z])/g` to `'$1-$2'`, i.e. insert a hyphen between every
adjacent lowercase-then-uppercase pair (the global matches of this
two-character pattern are non-overlapping and cannot interact, since a
match ends on an uppercase letter and a match starts on a lowercase
one). -/
def kebabCamelSplit : List Char → List Char
  | [] => []
  | [c] => [c]
  | a :: b :: rest =>
    if a.isLower && b.isUpper then
      a :: '-' :: kebabCamelSplit (b :: rest)
    else
      a :: kebabCamelSplit (b :: rest)

/-- Second substitution of `toKebabCase`: `/[\s_]+/g` to `'-'`, i.e.
collapse every maximal run of whitespace/underscore characters into a
single hyphen.  `inRun` records whether the previous character belonged
to a run that already emitted its hyphen. -/
def kebabSquashAux (inRun : Bool) : List Char → List Char
  | [] => []
  | c :: rest =>
    if isSpaceOrUnderscore c then
      if inRun then
        kebabSquashAux true rest
      else
        '-' :: kebabSquashAux true rest
    else
      c :: kebabSquashAux false rest

def kebabSquash (l : List Char) : List Char :=
  kebabSquashAux false l

/-- `toKebabCase` from the source: camel-case split, whitespace and
underscore squashing, then `toLowerCase` (ASCII). -/
def toKebabCase (str : String) : String :=
  String.mk (((kebabSquash (kebabCamelSplit str.data)).map Char.toLower))

/-- A character matched by the JS regex class `[a-z0-9-]`. -/
def isNpmSafeChar (c : Char) : Bool :=
  ('a' ≤ c && c ≤ 'z') || ('0' ≤ c && c ≤ '9') || c = '-'

/-- `validateProjectName` from the source: `/^[a-z0-9-]+$/` plus no
leading and no trailing hyphen. -/
def validateProjectName (name : String) : Bool :=
  (!name.data.isEmpty && name.data.all isNpmSafeChar)
    && !(jsStartsWith name "-") && !(jsEndsWith name "-")

/-! ### Character-level facts -/

/-- A raw-name character handled by the amended normalization claim:
ASCII letter, digit, whitespace/underscore, or hyphen. -/
def isTameRawChar (c : Char) : Bool :=
  ('a' ≤ c && c ≤ 'z') || ('A' ≤ c && c ≤ 'Z') || ('0' ≤ c && c ≤ '9')
    || isSpaceOrUnderscore c || c = '-'

/-- ASCII letter or digit. -/
def isAsciiAlnum (c : Char) : Bool :=
  ('a' ≤ c && c ≤ 'z') || ('A' ≤ c && c ≤ 'Z') || ('0' ≤ c && c ≤ '9')

theorem char_eq_of_toNat_eq {c d : Char} (h : c.toNat = d.toNat) : c = d := by
  have hc := Char.ofNat_toNat c
  rw [h, Char.ofNat_toNat d] at hc
  exact hc.symm

theorem char_le_iff_toNat {c d : Char} : c ≤ d ↔ c.toNat ≤ d.toNat := by
  rw [Char.le_def, UInt32.le_def, BitVec.le_def]
  exact Iff.rfl

theorem char_eq_iff_toNat {c d : Char} : c = d ↔ c.toNat = d.toNat :=
  ⟨fun h => h ▸ rfl, char_eq_of_toNat_eq⟩

theorem toNat_space_char : (' ').toNat = 32 := rfl

theorem toNat_tab_char : ('\t').toNat = 9 := rfl

theorem toNat_lf_char : ('\n').toNat = 10 := rfl

theorem toNat_vt_char : ('\x0b').toNat = 11 := rfl

theorem toNat_ff_char : ('\x0c').toNat = 12 := rfl

theorem toNat_cr_char : ('\r').toNat = 13 := rfl

theorem toNat_underscore_char : ('_').toNat = 95 := rfl

theorem toNat_hyphen_char : ('-').toNat = 45 := rfl

theorem toNat_a_char : ('a').toNat = 97 := rfl

theorem toNat_z_char : ('z').toNat = 122 := rfl

theorem toNat_A_char : ('A').toNat = 65 := rfl

theorem toNat_Z_char : ('Z').toNat = 90 := rfl

theorem toNat_zero_char : ('0').toNat = 48 := rfl

theorem toNat_nine_char : ('9').toNat = 57 := rfl

theorem isSpaceOrUnderscore_iff (c : Char) :
    isSpaceOrUnderscore c = true ↔
      c.toNat = 32 ∨ c.toNat = 9 ∨ c.toNat = 10 ∨ c.toNat = 11 ∨
        c.toNat = 12 ∨ c.toNat = 13 ∨ c.toNat = 95 := by
  simp only [isSpaceOrUnderscore, Bool.or_eq_true, decide_eq_true_eq, char_eq_iff_toNat,
    toNat_space_char, toNat_tab_char, toNat_lf_char, toNat_vt_char, toNat_ff_char,
    toNat_cr_char, toNat_underscore_char]
  omega

theorem isNpmSafeChar_iff (c : Char) :
    isNpmSafeChar c = true ↔
      (97 ≤ c.toNat ∧ c.toNat ≤ 122) ∨ (48 ≤ c.toNat ∧ c.toNat ≤ 57) ∨ c.toNat = 45 := by
  simp only [isNpmSafeChar, Bool.or_eq_true, Bool.and_eq_true, decide_eq_true_eq,
    char_le_iff_toNat, char_eq_iff_toNat,
    toNat_a_char, toNat_z_char, toNat_zero_char, toNat_nine_char, toNat_hyphen_char]
  omega

theorem isAsciiAlnum_iff (c : Char) :
    isAsciiAlnum c = true ↔
      (97 ≤ c.toNat ∧ c.toNat ≤ 122) ∨ (65 ≤ c.toNat ∧ c.toNat ≤ 90) ∨
        (48 ≤ c.toNat ∧ c.toNat ≤ 57) := by
  simp only [isAsciiAlnum, Bool.or_eq_true, Bool.and_eq_true, decide_eq_true_eq,
    char_le_iff_toNat,
    toNat_a_char, toNat_z_char, toNat_A_char, toNat_Z_char, toNat_zero_char,
    toNat_nine_char]
  omega

theorem isTameRawChar_iff (c : Char) :
    isTameRawChar c = true ↔
      isAsciiAlnum c = true ∨ isSpaceOrUnderscore c = true ∨ c.toNat = 45 := by
  rw [isAsciiAlnum_iff, isSpaceOrUnderscore_iff]
  simp only [isTameRawChar, Bool.or_eq_true, Bool.and_eq_true, decide_eq_true_eq,
    char_le_iff_toNat, char_eq_iff_toNat, isSpaceOrUnderscore_iff,
    toNat_a_char, toNat_z_char, toNat_A_char, toNat_Z_char, toNat_zero_char,
    toNat_nine_char, toNat_hyphen_char]
  omega

theorem char_toNat_ofNat (n : Nat) (h : n.isValidChar) : (Char.ofNat n).toNat = n := by
  rw [Char.ofNat, dif_pos h]
  rfl

/-- `Char.toLower` (the model of JS `toLowerCase` on the ASCII strings the
claims range over) at the level of code points. -/
theorem toNat_toLower (c : Char) :
    (Char.toLower c).toNat = if 65 ≤ c.toNat ∧ c.toNat ≤ 90 then c.toNat + 32 else c.toNat := by
  unfold Char.toLower
  by_cases h : 65 ≤ c.toNat ∧ c.toNat ≤ 90
  · have hv : (c.toNat + 32).isValidChar := Or.inl (by omega)
    rw [if_pos ⟨h.1, h.2⟩, if_pos h, char_toNat_ofNat _ hv]
  · rw [if_neg (by omega), if_neg h]

theorem npmSafe_toLower {c : Char} (h : isTameRawChar c = true)
    (hs : isSpaceOrUnderscore c = false) : isNpmSafeChar (Char.toLower c) = true := by
  rw [isTameRawChar_iff] at h
  rcases h with h | h | h
  · rw [isAsciiAlnum_iff] at h
    rw [isNpmSafeChar_iff, toNat_toLower]
    rcases h with h | h | h
    · rw [if_neg (by omega)]; omega
    · rw [if_pos (by omega)]; omega
    · rw [if_neg (by omega)]; omega
  · rw [h] at hs; exact absurd hs (by simp)
  · rw [isNpmSafeChar_iff, toNat_toLower, if_neg (by omega)]; omega

theorem alnum_toLower_not_hyphen {c : Char} (h : isAsciiAlnum c = true) :
    (Char.toLower c).toNat ≠ 45 := by
  rw [isAsciiAlnum_iff] at h
  rw [toNat_toLower]
  rcases h with h | h | h
  · rw [if_neg (by omega)]; omega
  · rw [if_pos (by omega)]; omega
  · rw [if_neg (by omega)]; omega

theorem alnum_not_space {c : Char} (h : isAsciiAlnum c = true) :
    isSpaceOrUnderscore c = false := by
  rw [isAsciiAlnum_iff] at h
  by_contra hs
  rw [Bool.not_eq_false, isSpaceOrUnderscore_iff] at hs
  omega

theorem alnum_tame {c : Char} (h : isAsciiAlnum c = true) : isTameRawChar c = true := by
  rw [isTameRawChar_iff]
  exact Or.inl h

/-! ### Structure of the two substitution passes -/

theorem kebabCamelSplit_head : ∀ l : List Char, (kebabCamelSplit l).head? = l.head?
  | [] => rfl
  | [_] => rfl
  | a :: b :: r => by
    simp only [kebabCamelSplit]
    split <;> rfl

theorem kebabCamelSplit_mem : ∀ l : List Char, ∀ c ∈ kebabCamelSplit l, c ∈ l ∨ c = '-'
  | [] => by simp [kebabCamelSplit]
  | [a] => by simp [kebabCamelSplit]
  | a :: b :: r => by
    have ih := kebabCamelSplit_mem (b :: r)
    simp only [kebabCamelSplit]
    split
    · intro c hc
      simp only [List.mem_cons] at hc ⊢
      rcases hc with rfl | rfl | hc
      · exact Or.inl (Or.inl rfl)
      · exact Or.inr rfl
      · rcases ih c hc with h | h
        · simp only [List.mem_cons] at h
          exact Or.inl (Or.inr h)
        · exact Or.inr h
    · intro c hc
      simp only [List.mem_cons] at hc ⊢
      rcases hc with rfl | hc
      · exact Or.inl (Or.inl rfl)
      · rcases ih c hc with h | h
        · simp only [List.mem_cons] at h
          exact Or.inl (Or.inr h)
        · exact Or.inr h

theorem kebabCamelSplit_getLast? : ∀ l : List Char, (kebabCamelSplit l).getLast? = l.getLast?
  | [] => rfl
  | [_] => rfl
  | a :: b :: r => by
    have ih := kebabCamelSplit_getLast? (b :: r)
    have hhd := kebabCamelSplit_head (b :: r)
    obtain ⟨t, ht⟩ : ∃ t, kebabCamelSplit (b :: r) = b :: t := by
      cases hsplit : kebabCamelSplit (b :: r) with
      | nil => rw [hsplit] at hhd; simp at hhd
      | cons x xs =>
        rw [hsplit] at hhd
        simp only [List.head?_cons] at hhd
        cases hhd
        exact ⟨xs, rfl⟩
    simp only [kebabCamelSplit]
    split
    · rw [ht, List.getLast?_cons_cons, List.getLast?_cons_cons, ← ht, ih,
        List.getLast?_cons_cons]
    · rw [ht, List.getLast?_cons_cons, ← ht, ih, List.getLast?_cons_cons]

theorem kebabSquashAux_nil (b : Bool) : kebabSquashAux b [] = [] := rfl

theorem kebabSquashAux_cons (b : Bool) (c : Char) (rest : List Char) :
    kebabSquashAux b (c :: rest) =
      if isSpaceOrUnderscore c then
        if b then kebabSquashAux true rest else '-' :: kebabSquashAux true rest
      else c :: kebabSquashAux false rest := rfl

theorem kebabSquashAux_mem :
    ∀ (b : Bool) (l : List Char), ∀ c ∈ kebabSquashAux b l,
      (c ∈ l ∧ isSpaceOrUnderscore c = false) ∨ c = '-'
  | _, [] => by
    intro c hc
    rw [kebabSquashAux_nil] at hc
    simp at hc
  | b, x :: r => by
    intro c hc
    rw [kebabSquashAux_cons] at hc
    by_cases hx : isSpaceOrUnderscore x = true
    · rw [if_pos hx] at hc
      have step : c ∈ kebabSquashAux true r ∨ c = '-' := by
        cases b with
        | true => rw [if_pos rfl] at hc; exact Or.inl hc
        | false =>
          rw [if_neg (by simp)] at hc
          rcases List.mem_cons.mp hc with rfl | hmem
          · exact Or.inr rfl
          · exact Or.inl hmem
      rcases step with hmem | rfl
      · rcases kebabSquashAux_mem true r c hmem with ⟨h1, h2⟩ | h
        · exact Or.inl ⟨List.mem_cons_of_mem _ h1, h2⟩
        · exact Or.inr h
      · exact Or.inr rfl
    · rw [if_neg hx] at hc
      rcases List.mem_cons.mp hc with rfl | hmem
      · exact Or.inl ⟨List.mem_cons_self _ _, Bool.not_eq_true _ ▸ hx⟩
      · rcases kebabSquashAux_mem false r c hmem with ⟨h1, h2⟩ | h
        · exact Or.inl ⟨List.mem_cons_of_mem _ h1, h2⟩
        · exact Or.inr h

theorem kebabSquashAux_getLast? :
    ∀ (b : Bool) (l : List Char) (z : Char), l.getLast? = some z →
      isSpaceOrUnderscore z = false → (kebabSquashAux b l).getLast? = some z
  | _, [], _ => by
    intro hlast _
    simp at hlast
  | b, x :: r, z => by
    intro hlast hz
    cases r with
    | nil =>
      have hxz : x = z := by simpa using hlast
      subst hxz
      rw [kebabSquashAux_cons, if_neg (by rw [hz]; simp), kebabSquashAux_nil]
      simp
    | cons y r' =>
      rw [List.getLast?_cons_cons] at hlast
      have ih := fun b' => kebabSquashAux_getLast? b' (y :: r') z hlast hz
      rw [kebabSquashAux_cons]
      by_cases hx : isSpaceOrUnderscore x = true
      · rw [if_pos hx]
        cases b with
        | true => rw [if_pos rfl]; exact ih true
        | false =>
          rw [if_neg (by simp), List.getLast?_cons, ih true]
          rfl
      · rw [if_neg hx, List.getLast?_cons, ih false]
        rfl

theorem hyphen_prefix_false {d : Char} (hd : d ≠ '-') (rest : List Char) :
    ['-'].isPrefixOf (d :: rest) = false := by
  have hbeq : (('-' : Char) == d) = false := beq_eq_false_iff_ne.mpr fun h => hd h.symm
  simp [List.isPrefixOf, hbeq]

/-- Main soundness lemma for normalization on well-behaved raw names:
if every character of the raw name is an ASCII letter, digit,
whitespace, underscore, or hyphen, and the first and last characters
are letters or digits, then `toKebabCase` produces a name that
`validateProjectName` accepts. -/
theorem toKebabCase_valid_of_tame (s : String)
    (htame : s.data.all isTameRawChar = true)
    (c z : Char) (hhead : s.data.head? = some c) (hc : isAsciiAlnum c = true)
    (hlast : s.data.getLast? = some z) (hz : isAsciiAlnum z = true) :
    validateProjectName (toKebabCase s) = true := by
  have hfinal : (toKebabCase s).data
      = (kebabSquash (kebabCamelSplit s.data)).map Char.toLower := rfl
  have hmem2 : ∀ x ∈ kebabSquash (kebabCamelSplit s.data),
      (isTameRawChar x = true ∧ isSpaceOrUnderscore x = false) ∨ x = '-' := by
    intro x hx
    rcases kebabSquashAux_mem false (kebabCamelSplit s.data) x hx with ⟨h1, h2⟩ | h
    · rcases kebabCamelSplit_mem s.data x h1 with hmem | rfl
      · exact Or.inl ⟨List.all_eq_true.mp htame x hmem, h2⟩
      · exact Or.inr rfl
    · exact Or.inr h
  have hall : ∀ x ∈ (toKebabCase s).data, isNpmSafeChar x = true := by
    intro x hx
    rw [hfinal] at hx
    rcases List.mem_map.mp hx with ⟨y, hy, rfl⟩
    rcases hmem2 y hy with ⟨h1, h2⟩ | rfl
    · exact npmSafe_toLower h1 h2
    · decide
  have h1head : (kebabCamelSplit s.data).head? = some c := by
    rw [kebabCamelSplit_head, hhead]
  obtain ⟨t, ht⟩ : ∃ t, kebabCamelSplit s.data = c :: t := by
    cases hcase : kebabCamelSplit s.data with
    | nil => rw [hcase] at h1head; simp at h1head
    | cons x xs =>
      rw [hcase] at h1head
      simp only [List.head?_cons, Option.some_inj] at h1head
      exact ⟨xs, by rw [h1head]⟩
  have hcsp : isSpaceOrUnderscore c = false := alnum_not_space hc
  have h2shape : kebabSquash (kebabCamelSplit s.data) = c :: kebabSquashAux false t := by
    rw [ht]
    unfold kebabSquash
    rw [kebabSquashAux_cons, if_neg (by rw [hcsp]; simp)]
  have h1last : (kebabCamelSplit s.data).getLast? = some z := by
    rw [kebabCamelSplit_getLast?, hlast]
  have h2last : (kebabSquash (kebabCamelSplit s.data)).getLast? = some z :=
    kebabSquashAux_getLast? false _ z h1last (alnum_not_space hz)
  have hfinal_shape : (toKebabCase s).data
      = Char.toLower c :: (kebabSquashAux false t).map Char.toLower := by
    rw [hfinal, h2shape]
    rfl
  have hfinal_last : (toKebabCase s).data.getLast? = some (Char.toLower z) := by
    rw [hfinal, List.getLast?_map, h2last]
    rfl
  have hhd_ne : Char.toLower c ≠ '-' := fun h =>
    alnum_toLower_not_hyphen hc (by rw [h]; rfl)
  have hlast_ne : Char.toLower z ≠ '-' := fun h =>
    alnum_toLower_not_hyphen hz (by rw [h]; rfl)
  have hstart : jsStartsWith (toKebabCase s) "-" = false := by
    show ("-").data.isPrefixOf (toKebabCase s).data = false
    rw [hfinal_shape]
    exact hyphen_prefix_false hhd_ne _
  have hend : jsEndsWith (toKebabCase s) "-" = false := by
    show ("-").data.isSuffixOf (toKebabCase s).data = false
    show ("-").data.reverse.isPrefixOf (toKebabCase s).data.reverse = false
    have hrevhd : (toKebabCase s).data.reverse.head? = some (Char.toLower z) := by
      rw [List.head?_reverse, hfinal_last]
    cases hrev : (toKebabCase s).data.reverse with
    | nil => rw [hrev] at hrevhd; simp at hrevhd
    | cons e es =>
      rw [hrev] at hrevhd
      simp only [List.head?_cons, Option.some_inj] at hrevhd
      subst hrevhd
      exact hyphen_prefix_false hlast_ne _
  have hnonempty : (toKebabCase s).data.isEmpty = false := by
    rw [hfinal_shape]
    rfl
  rw [validateProjectName, hnonempty, hstart, hend,
    List.all_eq_true.mpr hall]
  rfl

/-- C3, counterexample: the claim quantifies over *every* raw project
name containing a space, underscore, or case change, but `toKebabCase`
applied to the raw name `"_abc"` (which contains an underscore) yields
`"-abc"`, which starts with a hyphen and so violates the claimed
invariant (`validateProjectName` rejects it). -/
theorem c3_normalization_counterexample :
    jsIncludes "_abc" "_" = true ∧ toKebabCase "_abc" = "-abc"
      ∧ validateProjectName (toKebabCase "_abc") = false := by
  decide

/-- C3, amended: for every raw project name whose characters are ASCII
letters, digits, whitespace, underscores, or hyphens, and whose first
and last characters are letters or digits, `toKebabCase` yields a
string matching `^[a-z0-9-]+$` that neither starts nor ends with a
hyphen (i.e. `validateProjectName` accepts it).  For raw names with a
leading/trailing separator or with characters outside this set the
claimed invariant fails (see the counterexample), and the pipeline
instead rejects such names after normalization. -/
theorem c3_normalization_amended (s : String)
    (htame : s.data.all isTameRawChar = true)
    (c z : Char) (hhead : s.data.head? = some c) (hc : isAsciiAlnum c = true)
    (hlast : s.data.getLast? = some z) (hz : isAsciiAlnum z = true) :
    validateProjectName (toKebabCase s) = true :=
  toKebabCase_valid_of_tame s htame c z hhead hc hlast hz

/-- Witness for C3 at the concrete raw name `"My App_1"`. -/
theorem c3_normalization_amended_witness :
    ("My App_1".data.all isTameRawChar = true)
      ∧ validateProjectName (toKebabCase "My App_1") = true :=
  ⟨by decide,
    c3_normalization_amended "My App_1" (by decide) 'M' '1' (by decide) (by decide)
      (by decide) (by decide)⟩

/-! ## BOM sanitizer (`sanitizeBOM`)

Source (`src/dist/index.js` lines 148-189, repeated verbatim at lines
697-738): for each of four fixed file names, if the file exists and its
buffer starts with the bytes `EF BB BF`, rewrite it with those three
bytes stripped; otherwise leave it alone.  A directory is modelled as
an association list from file names to byte contents; a listed file
that is absent from the directory is simply not an entry (the code
skips it silently).  `Buffer.slice(3).toString('utf8')` followed by a
UTF-8 `writeFile` round-trips the remaining bytes for the UTF-8 text
files involved, so the rewrite is modelled as dropping three bytes. -/

/-- The BOM test from the source:
`buffer.length >= 3 && buffer[0] === 0xEF && buffer[1] === 0xBB && buffer[2] === 0xBF`. -/
def hasBOM (bytes : List Nat) : Bool :=
  match bytes with
  | b0 :: b1 :: b2 :: _ => b0 == 0xEF && b1 == 0xBB && b2 == 0xBF
  | _ => false

/-- One sanitizing pass over one file's bytes. -/
def sanitizeFileBytes (bytes : List Nat) : List Nat :=
  if hasBOM bytes then bytes.drop 3 else bytes

/-- The fixed allowlist of files inspected by the sanitizer. -/
def filesToSanitize : List String :=
  ["package.json", "tsconfig.json", ".releaserc.json", "astro.config.mjs"]

/-- The per-entry action of `sanitizeBOM`. -/
def sanitizeEntry : String × List Nat → String × List Nat
  | (n, bytes) =>
    if filesToSanitize.contains n then (n, sanitizeFileBytes bytes) else (n, bytes)

theorem sanitizeEntry_def (n : String) (bytes : List Nat) :
    sanitizeEntry (n, bytes) =
      if filesToSanitize.contains n then (n, sanitizeFileBytes bytes) else (n, bytes) := rfl

/-- `sanitizeBOM` over a directory. -/
def sanitizeBOM (dir : List (String × List Nat)) : List (String × List Nat) :=
  dir.map sanitizeEntry

theorem sanitizeFileBytes_no_bom {bytes : List Nat} (h : hasBOM bytes = false) :
    sanitizeFileBytes bytes = bytes := by
  rw [sanitizeFileBytes, if_neg (by rw [h]; simp)]

theorem sanitizeFileBytes_idem (bytes : List Nat)
    (h : hasBOM (bytes.drop 3) = false ∨ hasBOM bytes = false) :
    sanitizeFileBytes (sanitizeFileBytes bytes) = sanitizeFileBytes bytes := by
  by_cases hb : hasBOM bytes = true
  · have hdrop : hasBOM (bytes.drop 3) = false := by
      rcases h with h | h
      · exact h
      · rw [hb] at h; cases h
    have hinner : sanitizeFileBytes bytes = bytes.drop 3 := by
      rw [sanitizeFileBytes, if_pos hb]
    rw [hinner, sanitizeFileBytes_no_bom hdrop]
  · have hb' : hasBOM bytes = false := Bool.not_eq_true _ ▸ hb
    rw [sanitizeFileBytes_no_bom hb', sanitizeFileBytes_no_bom hb']

theorem sanitizeEntry_idem (f : String × List Nat)
    (h : hasBOM (f.2.drop 3) = false ∨ hasBOM f.2 = false) :
    sanitizeEntry (sanitizeEntry f) = sanitizeEntry f := by
  obtain ⟨n, b⟩ := f
  cases hc : filesToSanitize.contains n with
  | false =>
    have e : sanitizeEntry (n, b) = (n, b) := by
      rw [sanitizeEntry_def, if_neg (by rw [hc]; simp)]
    rw [e, e]
  | true =>
    have e : sanitizeEntry (n, b) = (n, sanitizeFileBytes b) := by
      rw [sanitizeEntry_def, if_pos hc]
    rw [e, sanitizeEntry_def, if_pos hc, sanitizeFileBytes_idem b h]

/-- C4, counterexample: a `package.json` whose content starts with two
consecutive byte-order marks is stripped again by the second pass, so
the contents after the second run differ from the contents after the
first run — the sanitizer is not idempotent on such a directory. -/
theorem c4_sanitizer_counterexample :
    sanitizeBOM (sanitizeBOM
        [("package.json", [0xEF, 0xBB, 0xBF, 0xEF, 0xBB, 0xBF, 0x7B, 0x7D])])
      ≠ sanitizeBOM [("package.json", [0xEF, 0xBB, 0xBF, 0xEF, 0xBB, 0xBF, 0x7B, 0x7D])] := by
  decide

/-- C4, amended: a listed file that does not begin with the UTF-8
byte-order mark is left byte-for-byte untouched by a pass, and
consequently the sanitizer is idempotent on every directory in which no
listed file begins with two consecutive byte-order-mark sequences (a
file beginning with a doubled mark is stripped again by the second
pass). -/
theorem c4_sanitizer_amended :
    (∀ bytes : List Nat, hasBOM bytes = false → sanitizeFileBytes bytes = bytes)
    ∧ (∀ dir : List (String × List Nat),
        (∀ f ∈ dir, hasBOM (f.2.drop 3) = false ∨ hasBOM f.2 = false) →
        sanitizeBOM (sanitizeBOM dir) = sanitizeBOM dir) := by
  refine ⟨fun bytes h => sanitizeFileBytes_no_bom h, fun dir h => ?_⟩
  rw [sanitizeBOM, sanitizeBOM, List.map_map]
  apply List.map_congr_left
  intro f hf
  exact sanitizeEntry_idem f (h f hf)

/-- Witness for C4 on a concrete directory: one listed file with a
single mark, one unlisted file. -/
theorem c4_sanitizer_amended_witness :
    sanitizeBOM (sanitizeBOM
        [("package.json", [0xEF, 0xBB, 0xBF, 0x7B, 0x7D]), ("README.md", [0x41])])
      = sanitizeBOM
        [("package.json", [0xEF, 0xBB, 0xBF, 0x7B, 0x7D]), ("README.md", [0x41])] :=
  c4_sanitizer_amended.2
    [("package.json", [0xEF, 0xBB, 0xBF, 0x7B, 0x7D]), ("README.md", [0x41])]
    (by decide)

/-! ## Manifest rewriter (`updatePackageJson`)

Source (`src/dist/index.js` lines 239-256, repeated at 823-840):

```
const packageJsonContent = await fs.readFile(packageJsonPath, 'utf-8');
const packageJson = JSON.parse(packageJsonContent);
packageJson.name = projectName;
const jsonString = JSON.stringify(packageJson, null, 2) + "\n";
await fs.writeFile(packageJsonPath, jsonString, \x7b encoding: "utf8" \x7d);
```

and `src/unnamed/part_000` lines 88-107, which instead writes
`JSON.stringify(packageJson, null, 2)` with **no** trailing newline.

A JSON value is modelled by `Json`; the external `JSON.parse` is
modelled by its outcome (`ManifestContent`), `JSON.stringify(v, null, 2)`
is implemented concretely as `jsonStringify`.  ES modules run in strict
mode, so `packageJson.name = projectName` updates or appends the `name`
key of an object (preserving insertion order), is a no-op visible to
`JSON.stringify` when the parsed value is an array, and throws a
`TypeError` when the parsed value is `null` or another primitive. -/

inductive Json where
  | null
  | boolean (b : Bool)
  | num (n : Int)
  | str (s : String)
  | arr (items : List Json)
  | obj (fields : List (String × Json))

/-- `String.intercalate` written with plain structural recursion. -/
def joinSep (sep : String) : List String → String
  | [] => ""
  | [x] => x
  | x :: y :: rest => x ++ sep ++ joinSep sep (y :: rest)

def indentSpaces (n : Nat) : String :=
  String.mk (List.replicate n ' ')

def hexDigit (n : Nat) : Char :=
  if n < 10 then Char.ofNat (48 + n) else Char.ofNat (87 + n)

/-- JSON string escaping as performed by `JSON.stringify`. -/
def escapeChar (c : Char) : String :=
  if c = '"' then "\\\""
  else if c = '\\' then "\\\\"
  else if c = '\x08' then "\\b"
  else if c = '\t' then "\\t"
  else if c = '\n' then "\\n"
  else if c = '\x0c' then "\\f"
  else if c = '\r' then "\\r"
  else if c.toNat < 32 then
    String.mk ['\\', 'u', '0', '0', hexDigit (c.toNat / 16), hexDigit (c.toNat % 16)]
  else String.mk [c]

def quoteJsonString (s : String) : String :=
  "\"" ++ String.join (s.data.map escapeChar) ++ "\""

/-- `JSON.stringify(v, null, 2)` with explicit recursion fuel (the fuel
only needs to exceed the nesting depth; `jsonStringify` supplies
`sizeOf`, which does). -/
def stringifyFuel : Nat → Nat → Json → String
  | 0, _, _ => ""
  | Nat.succ fuel, ind, j =>
    match j with
    | .null => "null"
    | .boolean b => if b then "true" else "false"
    | .num n => toString n
    | .str s => quoteJsonString s
    | .arr [] => "[]"
    | .arr (x :: xs) =>
      "[\n"
        ++ joinSep ",\n"
          ((x :: xs).map fun it => indentSpaces (ind + 2) ++ stringifyFuel fuel (ind + 2) it)
        ++ "\n" ++ indentSpaces ind ++ "]"
    | .obj [] => "\x7b\x7d"
    | .obj (kv :: kvs) =>
      "\x7b\n"
        ++ joinSep ",\n"
          ((kv :: kvs).map fun f =>
            indentSpaces (ind + 2) ++ quoteJsonString f.1 ++ ": "
              ++ stringifyFuel fuel (ind + 2) f.2)
        ++ "\n" ++ indentSpaces ind ++ "\x7d"

mutual

/-- Size of a JSON value; exceeds its nesting depth, so it serves as
recursion fuel for `stringifyFuel`. -/
def jsonSize : Json → Nat
  | .null => 1
  | .boolean _ => 1
  | .num _ => 1
  | .str _ => 1
  | .arr items => 1 + jsonSizeList items
  | .obj fields => 1 + jsonSizeFields fields

def jsonSizeList : List Json → Nat
  | [] => 0
  | x :: xs => jsonSize x + jsonSizeList xs

def jsonSizeFields : List (String × Json) → Nat
  | [] => 0
  | (_, v) :: rest => jsonSize v + jsonSizeFields rest

end

/-- Model of the library call `JSON.stringify(v, null, 2)`. -/
def jsonStringify (j : Json) : String :=
  stringifyFuel (jsonSize j) 0 j

/-- JS property assignment on an object: update the key in place if
present (keeping insertion order), else append it. -/
def setObjField : List (String × Json) → String → Json → List (String × Json)
  | [], k, v => [(k, v)]
  | (k', v') :: rest, k, v =>
    if k' = k then (k', v) :: rest else (k', v') :: setObjField rest k v

def lookupField : List (String × Json) → String → Option Json
  | [], _ => none
  | (k', v') :: rest, k => if k' = k then some v' else lookupField rest k

/-- Outcome of `fs.readFile` + `JSON.parse` on the manifest (both are
external library calls): the file is missing, its text is not valid
JSON, or it parses to a JSON value. -/
inductive ManifestContent where
  | missing
  | invalid
  | json (j : Json)

inductive ManifestError where
  | readFailed
  | parseFailed
  | assignFailed
deriving DecidableEq

/-- `packageJson.name = projectName` under strict-mode semantics. -/
def setNameField : Json → String → Except ManifestError Json
  | .obj fields, v => .ok (.obj (setObjField fields "name" (.str v)))
  | .arr items, _ => .ok (.arr items)
  | _, _ => .error .assignFailed

/-- `updatePackageJson` from `src/dist/index.js` (both variants):
parse, assign the name, serialize with two-space indentation and a
trailing newline. -/
def updatePackageJson (content : ManifestContent) (projectName : String) :
    Except ManifestError String :=
  match content with
  | .missing => .error .readFailed
  | .invalid => .error .parseFailed
  | .json j =>
    match setNameField j projectName with
    | .error e => .error e
    | .ok j2 => .ok (jsonStringify j2 ++ "\n")

/-- `updatePackageJson` from `src/unnamed/part_000`: identical except
that the serialized text is written without the trailing newline. -/
def updatePackageJsonLegacy (content : ManifestContent) (projectName : String) :
    Except ManifestError String :=
  match content with
  | .missing => .error .readFailed
  | .invalid => .error .parseFailed
  | .json j =>
    match setNameField j projectName with
    | .error e => .error e
    | .ok j2 => .ok (jsonStringify j2)

def exceptIsOk {ε α : Type} : Except ε α → Bool
  | .ok _ => true
  | .error _ => false

/-- Whether the strict-mode assignment `value.name = x` succeeds on the
parsed value: it does on objects and arrays, throws on `null` and on
primitives. -/
def jsonAssignable : Json → Bool
  | .obj _ => true
  | .arr _ => true
  | _ => false

theorem setObjField_lookup_same :
    ∀ (fields : List (String × Json)) (k : String) (v : Json),
      lookupField (setObjField fields k v) k = some v
  | [], k, v => by simp [setObjField, lookupField]
  | (k', v') :: rest, k, v => by
    by_cases h : k' = k
    · simp [setObjField, lookupField, h]
    · simp [setObjField, lookupField, h, setObjField_lookup_same rest k v]

theorem setObjField_lookup_other :
    ∀ (fields : List (String × Json)) (k : String) (v : Json) (k₀ : String), k₀ ≠ k →
      lookupField (setObjField fields k v) k₀ = lookupField fields k₀
  | [], k, v, k₀ => by
    intro hne
    simp [setObjField, lookupField, Ne.symm hne]
  | (k', v') :: rest, k, v, k₀ => by
    intro hne
    by_cases h : k' = k
    · subst h
      simp [setObjField, lookupField, Ne.symm hne]
    · simp [setObjField, lookupField, h, setObjField_lookup_other rest k v k₀ hne]

theorem string_append_head (s t : String) (c : Char) (h : s.data.head? = some c) :
    (s ++ t).data.head? = some c := by
  cases s with | mk a =>
  cases t with | mk b =>
  cases a with
  | nil => simp at h
  | cons x xs =>
    show ((x :: xs) ++ b).head? = some c
    rw [List.cons_append, List.head?_cons]
    exact h

/-- Serialized objects begin with an opening brace (in particular the
written text carries no byte-order mark). -/
theorem jsonStringify_obj_head (fields : List (String × Json)) :
    (jsonStringify (Json.obj fields)).data.head? = some '\x7b' := by
  cases fields with
  | nil => rfl
  | cons kv kvs =>
    have hsz : jsonSize (Json.obj (kv :: kvs)) = jsonSizeFields (kv :: kvs) + 1 := by
      rw [jsonSize, Nat.add_comm]
    rw [jsonStringify, hsz]
    simp only [stringifyFuel]
    exact string_append_head _ _ _
      (string_append_head _ _ _ (string_append_head _ _ _ (string_append_head _ _ _ rfl)))

/-- C5, counterexample: the legacy rewriter in `src/unnamed/part_000`
writes `JSON.stringify(packageJson, null, 2)` with no trailing newline,
so on the manifest `\x7b"name":"old-name"\x7d` its output does not end
in a newline, contradicting the claimed contract. -/
theorem c5_manifest_counterexample :
    updatePackageJsonLegacy (.json (.obj [("name", .str "old-name")])) "new-name"
        = .ok "\x7b\n  \"name\": \"new-name\"\n\x7d"
      ∧ jsEndsWith "\x7b\n  \"name\": \"new-name\"\n\x7d" "\n" = false :=
  ⟨rfl, by decide⟩

/-- C5, amended: on an object manifest, both dist rewriters set exactly
the `name` field (other fields keep their values and order) and write
the value back serialized with two-space indentation; the dist variants
append a trailing newline while the legacy `part_000` variant writes
the same serialization without it; the serialized object starts with a
brace, hence carries no byte-order mark; and the rewrite fails exactly
when the manifest is missing, is not valid JSON, or parses to a value
that admits no `name` property (`null` or a primitive — on such valid
JSON the claimed failure condition was too narrow). -/
theorem c5_manifest_amended :
    (∀ (fields : List (String × Json)) (name : String),
        updatePackageJson (.json (.obj fields)) name
            = .ok (jsonStringify (.obj (setObjField fields "name" (.str name))) ++ "\n")
          ∧ updatePackageJsonLegacy (.json (.obj fields)) name
            = .ok (jsonStringify (.obj (setObjField fields "name" (.str name)))))
    ∧ (∀ (fields : List (String × Json)) (name : String),
        lookupField (setObjField fields "name" (.str name)) "name" = some (.str name)
          ∧ ∀ k, k ≠ "name" →
              lookupField (setObjField fields "name" (.str name)) k = lookupField fields k)
    ∧ (∀ fields : List (String × Json),
        (jsonStringify (.obj fields)).data.head? = some '\x7b')
    ∧ (∀ (content : ManifestContent) (name : String),
        exceptIsOk (updatePackageJson content name) = false
          ↔ content = .missing ∨ content = .invalid
            ∨ ∃ j, content = .json j ∧ jsonAssignable j = false) := by
  refine ⟨fun fields name => ⟨rfl, rfl⟩,
    fun fields name =>
      ⟨setObjField_lookup_same fields "name" (.str name),
        fun k hk => setObjField_lookup_other fields "name" (.str name) k hk⟩,
    jsonStringify_obj_head, fun content name => ?_⟩
  cases content with
  | missing => simp [updatePackageJson, exceptIsOk]
  | invalid => simp [updatePackageJson, exceptIsOk]
  | json j =>
    cases j <;>
      simp [updatePackageJson, setNameField, exceptIsOk, jsonAssignable]

/-- Witness for C5 at a concrete two-field manifest. -/
theorem c5_manifest_amended_witness :
    updatePackageJson
        (.json (.obj [("name", .str "old"), ("version", .str "1.0.0")])) "my-app"
      = .ok (jsonStringify
          (.obj (setObjField [("name", .str "old"), ("version", .str "1.0.0")]
            "name" (.str "my-app"))) ++ "\n") :=
  (c5_manifest_amended.1 [("name", .str "old"), ("version", .str "1.0.0")] "my-app").1

/-! ## Package manager adapter (`installDependencies`)

Source (`src/dist/index.js` lines 282-314, repeated at 866-898): run
`<manager> install` via `execSync` with the project directory as
working directory; if that throws and the manager was yarn, run
`npm install` once in the same directory, succeeding if it succeeds and
rethrowing its error if not; a pnpm or npm failure is rethrown at once.
The legacy `src/unnamed/part_000` lines 123-139 has no fallback: any
failure is rethrown immediately.

The `execSync` collaborator is modelled by three oracles saying whether
`yarn install`, `npm install` and `pnpm install` succeed in the project
directory.  The returned list records the install commands executed, in
order. -/

inductive PM where
  | npm
  | yarn
  | pnpm
deriving DecidableEq

inductive InstallOutcome where
  | success
  | failure
deriving DecidableEq

/-- `installDependencies` from `src/dist/index.js` (both variants). -/
def installDependencies (pm : PM) (yarnInstallOk npmInstallOk pnpmInstallOk : Bool) :
    InstallOutcome × List PM :=
  let firstOk :=
    match pm with
    | .yarn => yarnInstallOk
    | .npm => npmInstallOk
    | .pnpm => pnpmInstallOk
  if firstOk then
    (.success, [pm])
  else
    match pm with
    | .yarn =>
      if npmInstallOk then (.success, [.yarn, .npm]) else (.failure, [.yarn, .npm])
    | _ => (.failure, [pm])

/-- `installDependencies` from `src/unnamed/part_000`: no fallback. -/
def installDependenciesLegacy (pm : PM) (yarnInstallOk npmInstallOk pnpmInstallOk : Bool) :
    InstallOutcome × List PM :=
  let firstOk :=
    match pm with
    | .yarn => yarnInstallOk
    | .npm => npmInstallOk
    | .pnpm => pnpmInstallOk
  if firstOk then (.success, [pm]) else (.failure, [pm])

/-- C6, counterexample: in the legacy `part_000` installer, when yarn
is selected, `yarn install` fails and `npm install` would succeed, no
npm install is attempted and the stage fails anyway — contradicting the
claimed automatic retry. -/
theorem c6_install_counterexample :
    installDependenciesLegacy .yarn false true true = (.failure, [PM.yarn]) := by
  decide

/-- C6, amended: in the dist installers, a yarn failure triggers
exactly one npm retry in the same directory (the attempt list is
`[yarn, npm]`), the stage succeeds iff yarn or the npm retry succeeds,
and a pnpm or npm failure surfaces immediately with no retry; the
legacy `part_000` installer never retries, so there a yarn failure
surfaces immediately even when npm would succeed. -/
theorem c6_install_amended :
    ∀ y n p : Bool,
      installDependencies .yarn y n p
          = ((if y || n then .success else .failure),
              if y then [PM.yarn] else [PM.yarn, PM.npm])
        ∧ installDependencies .npm y n p = ((if n then .success else .failure), [PM.npm])
        ∧ installDependencies .pnpm y n p = ((if p then .success else .failure), [PM.pnpm])
        ∧ installDependenciesLegacy .yarn y n p
          = ((if y then .success else .failure), [PM.yarn]) := by
  decide

/-! ## Reference resolver (`getLatestTag`)

Source (`src/dist/index.js` lines 190-206, repeated at 739-755, and
`src/unnamed/part_000` lines 29-48, all identical): fetch the
latest-release metadata; on a network error, a non-success status, or a
body that fails to parse as JSON, warn and return the fixed string
`'v0.1.0'`; otherwise return the `tag_name` field of the parsed body.
The `node-fetch` collaborator is modelled by `FetchOutcome`; the `Bool`
in the result records whether the warning path (`spinner.fail` +
`console.warn`) was taken. -/

inductive BodyParse where
  | failed
  | parsed (tag : Option String)
deriving DecidableEq

inductive FetchOutcome where
  | netError
  | response (ok : Bool) (body : BodyParse)
deriving DecidableEq

def getLatestTag : FetchOutcome → Option String × Bool
  | .netError => (some "v0.1.0", true)
  | .response ok body =>
    if ok then
      match body with
      | .failed => (some "v0.1.0", true)
      | .parsed tag => (tag, false)
    else (some "v0.1.0", true)

/-- The failure modes enumerated by the claim: network error,
non-success HTTP status, unparseable body. -/
def isResolutionFailure : FetchOutcome → Bool
  | .netError => true
  | .response ok body =>
    !ok || (match body with | .failed => true | .parsed _ => false)

/-- C7: on every resolution failure (network error, non-success status,
or unparseable body) the resolver warns and returns the fixed fallback
version string `'v0.1.0'` instead of aborting. -/
theorem c7_fallback_tag (o : FetchOutcome) (h : isResolutionFailure o = true) :
    getLatestTag o = (some "v0.1.0", true) := by
  cases o with
  | netError => rfl
  | response ok body =>
    cases ok with
    | false => rfl
    | true =>
      cases body with
      | failed => rfl
      | parsed tag => simp [isResolutionFailure] at h

/-- Witness for C7 at a concrete non-success HTTP response. -/
theorem c7_fallback_tag_witness :
    getLatestTag (.response false (.parsed (some "v1.2.3"))) = (some "v0.1.0", true) :=
  c7_fallback_tag (.response false (.parsed (some "v1.2.3"))) (by decide)

/-! ## Cleanup engine, simple mode (`cleanupDevFiles`)

Source (`src/dist/index.js` lines 15-147): iterate over the top-level
entries of the project directory; `src` is handled first (removing its
nested `pages/api` subdirectory when API routes are disabled, counted
as one folder); whitelisted names are skipped; denylisted names are
removed and classified as file or folder by `lstat`; finally any name
matching the test/spec naming convention is removed and counted as a
file (this branch is not an `else` of the denylist branch and never
consults `lstat`).  Removal (`fs.rm` with `force`) is modelled as
succeeding. -/

structure FsEntry where
  name : String
  isDir : Bool
  /-- whether `<entry>/pages/api` exists; only consulted for `src`. -/
  hasPagesApi : Bool
deriving DecidableEq

structure CleanupResult where
  filesRemoved : Nat
  foldersRemoved : Nat
  removedItems : List String
deriving DecidableEq

def whitelistSimple : List String :=
  [".gitignore", "README.md", ".env.example", "eslint.config.js", "eslint.config.mjs",
   "eslint.config.ts", "astro.config.mjs", "astro.config.js", "astro.config.ts",
   "tsconfig.json", "package.json", "package-lock.json", "yarn.lock", "pnpm-lock.yaml",
   "public", "src"]

def denylistSimple : List String :=
  [".github", ".husky", ".releaserc.json", ".releaserc.js", ".releaserc.yml",
   ".releaserc.yaml", "CHANGELOG.md", "CONTRIBUTING.md", ".editorconfig",
   ".gitattributes", ".prettierrc", ".prettierrc.json", ".prettierrc.js",
   ".prettierrc.yml", ".prettierrc.yaml", ".prettierignore", ".vscode", ".npmignore",
   "docs", "vitest.config.js", "vitest.config.ts", "vitest.config.mjs",
   "jest.config.js", "jest.config.ts", "jest.config.json", "__tests__", "msw"]

/-- The test-file naming convention from the source:
`item.includes('.test.') || item.includes('.spec.') || item.endsWith('.test.js') ||
item.endsWith('.test.ts') || item.endsWith('.spec.js') || item.endsWith('.spec.ts')`. -/
def isTestFileName (s : String) : Bool :=
  jsIncludes s ".test." || jsIncludes s ".spec." || jsEndsWith s ".test.js"
    || jsEndsWith s ".test.ts" || jsEndsWith s ".spec.js" || jsEndsWith s ".spec.ts"

/-- One loop iteration of simple-mode `cleanupDevFiles`. -/
def cleanupStep (keepApi : Bool) (st : CleanupResult) (e : FsEntry) : CleanupResult :=
  if e.name = "src" then
    if !keepApi && e.hasPagesApi then
      { st with foldersRemoved := st.foldersRemoved + 1,
                removedItems := st.removedItems ++ ["src/pages/api/**"] }
    else st
  else if whitelistSimple.contains e.name then st
  else
    let st1 :=
      if denylistSimple.contains e.name then
        if e.isDir then
          { st with foldersRemoved := st.foldersRemoved + 1,
                    removedItems := st.removedItems ++ [e.name] }
        else
          { st with filesRemoved := st.filesRemoved + 1,
                    removedItems := st.removedItems ++ [e.name] }
      else st
    if isTestFileName e.name then
      { st1 with filesRemoved := st1.filesRemoved + 1,
                 removedItems := st1.removedItems ++ [e.name] }
    else st1

/-- Simple-mode `cleanupDevFiles` over the directory listing. -/
def cleanupDevFiles (keepApi : Bool) (items : List FsEntry) : CleanupResult :=
  items.foldl (cleanupStep keepApi) ⟨0, 0, []⟩

/-- Classification predicates mirroring the three removal branches. -/
def simpleApiRemoved (keepApi : Bool) (e : FsEntry) : Bool :=
  decide (e.name = "src") && (!keepApi && e.hasPagesApi)

def simpleDenyRemoved (e : FsEntry) : Bool :=
  !(decide (e.name = "src")) && !(whitelistSimple.contains e.name)
    && denylistSimple.contains e.name

def simpleTestRemoved (e : FsEntry) : Bool :=
  !(decide (e.name = "src")) && !(whitelistSimple.contains e.name)
    && isTestFileName e.name

theorem cleanupStep_counts (keepApi : Bool) (st : CleanupResult) (e : FsEntry) :
    (cleanupStep keepApi st e).foldersRemoved
        = st.foldersRemoved + (if simpleApiRemoved keepApi e then 1 else 0)
          + (if simpleDenyRemoved e && e.isDir then 1 else 0)
      ∧ (cleanupStep keepApi st e).filesRemoved
        = st.filesRemoved + (if simpleDenyRemoved e && !e.isDir then 1 else 0)
          + (if simpleTestRemoved e then 1 else 0) := by
  by_cases h1 : e.name = "src"
  · by_cases h2 : (!keepApi && e.hasPagesApi) = true <;>
      constructor <;>
        simp [cleanupStep, simpleApiRemoved, simpleDenyRemoved, simpleTestRemoved, h1, h2]
  · by_cases hw : e.name ∈ whitelistSimple
    · constructor <;>
        simp [cleanupStep, simpleApiRemoved, simpleDenyRemoved, simpleTestRemoved, h1, hw]
    · by_cases hd : e.name ∈ denylistSimple <;>
        by_cases hdir : e.isDir = true <;>
          by_cases ht : isTestFileName e.name = true <;>
            constructor <;>
              simp [cleanupStep, simpleApiRemoved, simpleDenyRemoved, simpleTestRemoved,
                h1, hw, hd, hdir, ht]

theorem cleanupFoldl_counts (keepApi : Bool) (items : List FsEntry) :
    ∀ st : CleanupResult,
      (items.foldl (cleanupStep keepApi) st).foldersRemoved
          = st.foldersRemoved + items.countP (simpleApiRemoved keepApi)
            + items.countP (fun e => simpleDenyRemoved e && e.isDir)
        ∧ (items.foldl (cleanupStep keepApi) st).filesRemoved
          = st.filesRemoved + items.countP (fun e => simpleDenyRemoved e && !e.isDir)
            + items.countP simpleTestRemoved := by
  induction items with
  | nil => intro st; simp
  | cons e rest ih =>
    intro st
    rw [List.foldl_cons]
    obtain ⟨ihf, ihr⟩ := ih (cleanupStep keepApi st e)
    obtain ⟨sf, sr⟩ := cleanupStep_counts keepApi st e
    refine ⟨?_, ?_⟩
    · rw [ihf, sf, List.countP_cons, List.countP_cons]
      omega
    · rw [ihr, sr, List.countP_cons, List.countP_cons]
      omega

/-- C9: in simple-mode cleanup the folders-removed count is exactly the
number of denylist removals whose entry is a directory (plus the API
special case), and the files-removed count is the number of denylist
removals of non-directories plus the number of test-convention
removals — every test-convention removal increments the files count
regardless of the entry's filesystem kind, and kind classification is
consulted only in the denylist branch. -/
theorem c9_test_removals_counted_as_files (keepApi : Bool) (items : List FsEntry) :
    (cleanupDevFiles keepApi items).foldersRemoved
        = items.countP (simpleApiRemoved keepApi)
          + items.countP (fun e => simpleDenyRemoved e && e.isDir)
      ∧ (cleanupDevFiles keepApi items).filesRemoved
        = items.countP (fun e => simpleDenyRemoved e && !e.isDir)
          + items.countP simpleTestRemoved := by
  have h := cleanupFoldl_counts keepApi items ⟨0, 0, []⟩
  simpa [cleanupDevFiles] using h

theorem cleanupStep_whitelist (keepApi : Bool) (st : CleanupResult) (e : FsEntry)
    (w : String) (hw : w ∈ whitelistSimple) (hst : w ∉ st.removedItems) :
    w ∉ (cleanupStep keepApi st e).removedItems := by
  have hapi : w ≠ "src/pages/api/**" := by
    intro heq
    subst heq
    revert hw
    decide
  by_cases h1 : e.name = "src"
  · by_cases h2 : (!keepApi && e.hasPagesApi) = true <;>
      simp [cleanupStep, h1, h2, List.mem_append, hst, hapi]
  · by_cases hwc : e.name ∈ whitelistSimple
    · simpa [cleanupStep, h1, hwc] using hst
    · have hne : w ≠ e.name := fun h => hwc (h ▸ hw)
      by_cases hd : e.name ∈ denylistSimple <;>
        by_cases hdir : e.isDir = true <;>
          by_cases ht : isTestFileName e.name = true <;>
            simp [cleanupStep, h1, hwc, hd, hdir, ht, List.mem_append, hst, hne]

theorem cleanupFoldl_whitelist (keepApi : Bool) (w : String) (hw : w ∈ whitelistSimple) :
    ∀ (items : List FsEntry) (st : CleanupResult), w ∉ st.removedItems →
      w ∉ (items.foldl (cleanupStep keepApi) st).removedItems
  | [], _ => fun h => h
  | e :: rest, st => fun h =>
    cleanupFoldl_whitelist keepApi w hw rest (cleanupStep keepApi st e)
      (cleanupStep_whitelist keepApi st e w hw h)

/-! ## Cleanup engine, pattern mode
(`cleanupDevFiles` / `processCleanupPatterns`, multi-framework variant)

Source (`src/dist/index.js` lines 555-696): fetch `.templateignore`
from the template repository (newline-separated glob patterns, trimmed,
blank lines and `#` comments dropped), falling back to a built-in
pattern list when the fetch fails or yields nothing; remove
`src/pages/api` first when API routes are disabled; then for each
pattern, skip it when the *whole pattern* matches the whitelist check
(`pattern.includes(stripped)` for glob whitelist entries, else equality
or `pattern.startsWith(entry + '/')`), otherwise expand it with the
`glob` library and remove every match, classifying file vs. folder by
`lstat`.

The external `glob` library call (plus the per-match `lstat`) is
modelled by `globFn : String → List (String × Bool)` giving the matched
relative paths and whether each is a directory; `fs.rm` is modelled as
succeeding. -/

def whitelistPattern : List String :=
  [".gitignore", "README.md", ".env.example", "eslint.config.*", "astro.config.*",
   "tsconfig.json", "package.json", "public/**", "src/**"]

def fallbackDenylist : List String :=
  [".github/**", ".husky/**", ".releaserc.*", "CHANGELOG.md", "CONTRIBUTING.md",
   ".editorconfig", ".gitattributes", ".prettierrc*", ".prettierignore", ".vscode/**",
   ".idea/**", ".npmignore", "docs/**", "vitest.config.*", "jest.config.*",
   "__tests__/**", "*.test.*", "*.spec.*", "test/**", "msw/**"]

/-- The per-pattern whitelist test from `processCleanupPatterns`:
```
whitelist.some(whitelistItem => \x7b
  if (whitelistItem.includes('*'))
    return pattern.includes(whitelistItem.replace('/**', '').replace('/*', ''));
  return pattern === whitelistItem || pattern.startsWith(whitelistItem + '/');
\x7d)
```
-/
def isWhitelistedPattern (whitelist : List String) (pattern : String) : Bool :=
  whitelist.any fun w =>
    if jsIncludes w "*" then
      jsIncludes pattern (jsReplaceFirst (jsReplaceFirst w "/**" "") "/*" "")
    else
      pattern == w || jsStartsWith pattern (w ++ "/")

/-- Removal of one glob match, classified by its filesystem kind. -/
def removeMatch (st : CleanupResult) (m : String × Bool) : CleanupResult :=
  if m.2 then
    { st with foldersRemoved := st.foldersRemoved + 1,
              removedItems := st.removedItems ++ [m.1] }
  else
    { st with filesRemoved := st.filesRemoved + 1,
              removedItems := st.removedItems ++ [m.1] }

/-- `processCleanupPatterns` from the source. -/
def processCleanupPatterns (globFn : String → List (String × Bool))
    (patterns whitelist : List String) : CleanupResult :=
  patterns.foldl
    (fun st pattern =>
      if isWhitelistedPattern whitelist pattern then st
      else (globFn pattern).foldl removeMatch st)
    ⟨0, 0, []⟩

/-- A character of the JS whitespace class `\s` (ASCII part), as
trimmed by `String.prototype.trim`. -/
def isJsWhitespace (c : Char) : Bool :=
  c = ' ' || c = '\t' || c = '\n' || c = '\x0b' || c = '\x0c' || c = '\r'

def trimChars (l : List Char) : List Char :=
  ((l.dropWhile isJsWhitespace).reverse.dropWhile isJsWhitespace).reverse

/-- `content.split('\n')` on character lists. -/
def splitLines : List Char → List (List Char)
  | [] => [[]]
  | c :: rest =>
    match splitLines rest with
    | [] => [[]]
    | hd :: tl => if c = '\n' then [] :: hd :: tl else (c :: hd) :: tl

/-- Parsing of a fetched `.templateignore` body:
`content.split('\n').map(line => line.trim()).filter(line => line && !line.startsWith('#'))`. -/
def parseTemplateIgnore (content : String) : List String :=
  ((splitLines content.data).map fun l => String.mk (trimChars l)).filter
    fun line => !(line == "") && !(jsStartsWith line "#")

/-- Pattern-mode `cleanupDevFiles`: the API special case runs first and
unconditionally, then the pattern pass; `templateIgnoreBody` is `some`
exactly when the `.templateignore` fetch returned a success response. -/
def cleanupDevFilesPattern (templateIgnoreBody : Option String)
    (globFn : String → List (String × Bool)) (keepApi apiDirExists : Bool) :
    CleanupResult :=
  let templateIgnorePatterns :=
    match templateIgnoreBody with
    | some content => parseTemplateIgnore content
    | none => []
  let patternsToCheck :=
    if templateIgnorePatterns.length > 0 then templateIgnorePatterns else fallbackDenylist
  let apiPart : CleanupResult :=
    if !keepApi && apiDirExists then ⟨0, 1, ["src/pages/api/**"]⟩ else ⟨0, 0, []⟩
  let patternPart := processCleanupPatterns globFn patternsToCheck whitelistPattern
  ⟨apiPart.filesRemoved + patternPart.filesRemoved,
   apiPart.foldersRemoved + patternPart.foldersRemoved,
   apiPart.removedItems ++ patternPart.removedItems⟩

theorem removeMatch_foldl_mem (ms : List (String × Bool)) :
    ∀ (st : CleanupResult) (x : String),
      x ∈ (ms.foldl removeMatch st).removedItems →
      x ∈ st.removedItems ∨ x ∈ ms.map Prod.fst := by
  induction ms with
  | nil => intro st x hx; exact Or.inl hx
  | cons m rest ih =>
    intro st x hx
    rw [List.foldl_cons] at hx
    rcases ih (removeMatch st m) x hx with h | h
    · by_cases hm : m.2 = true <;>
        rw [removeMatch] at h
      · rw [if_pos hm] at h
        rcases List.mem_append.mp h with h' | h'
        · exact Or.inl h'
        · simp only [List.mem_singleton] at h'
          exact Or.inr (by simp [h'])
      · rw [if_neg hm] at h
        rcases List.mem_append.mp h with h' | h'
        · exact Or.inl h'
        · simp only [List.mem_singleton] at h'
          exact Or.inr (by simp [h'])
    · exact Or.inr (by rw [List.map_cons]; exact List.mem_cons_of_mem _ h)

theorem processCleanupPatterns_mem (globFn : String → List (String × Bool))
    (whitelist : List String) :
    ∀ (patterns : List String) (st : CleanupResult) (x : String),
      x ∈ (patterns.foldl
          (fun st pattern =>
            if isWhitelistedPattern whitelist pattern then st
            else (globFn pattern).foldl removeMatch st) st).removedItems →
      x ∈ st.removedItems
        ∨ ∃ p, p ∈ patterns ∧ isWhitelistedPattern whitelist p = false
            ∧ x ∈ (globFn p).map Prod.fst := by
  intro patterns
  induction patterns with
  | nil => intro st x hx; exact Or.inl hx
  | cons p rest ih =>
    intro st x hx
    rw [List.foldl_cons] at hx
    by_cases hp : isWhitelistedPattern whitelist p = true
    · rw [if_pos hp] at hx
      rcases ih st x hx with h | ⟨q, hq, hq2, hq3⟩
      · exact Or.inl h
      · exact Or.inr ⟨q, List.mem_cons_of_mem _ hq, hq2, hq3⟩
    · rw [if_neg hp] at hx
      rcases ih ((globFn p).foldl removeMatch st) x hx with h | ⟨q, hq, hq2, hq3⟩
      · rcases removeMatch_foldl_mem (globFn p) st x h with h' | h'
        · exact Or.inl h'
        · exact Or.inr ⟨p, List.mem_cons_self _ _, Bool.not_eq_true _ ▸ hp, h'⟩
      · exact Or.inr ⟨q, List.mem_cons_of_mem _ hq, hq2, hq3⟩

/-- C1, counterexample: in pattern mode the whitelist is consulted per
*pattern*, not per matched entry.  With a fetched `.templateignore`
containing the single pattern `tsconfig.*` — which passes the whitelist
check — the glob expansion matches `tsconfig.json`, a whitelisted
entry, and removes it: the whitelisted name appears in the
removed-items list. -/
theorem c1_whitelist_counterexample :
    "tsconfig.json" ∈ whitelistPattern
      ∧ "tsconfig.json" ∈ (cleanupDevFilesPattern (some "tsconfig.*\n")
          (fun p => if p == "tsconfig.*" then [("tsconfig.json", false)] else [])
          true false).removedItems := by
  decide

/-- C1, amended: in simple (exact-name) mode a whitelisted entry name
is never removed and never appears in the removed-items list, no matter
the directory contents or options.  In pattern mode the guarantee holds
only at pattern granularity: a pattern that passes the whitelist check
contributes no removals (every removed item comes from the glob
expansion of some non-whitelisted pattern), but an ignore pattern that
escapes that per-pattern check — such as a fetched `tsconfig.*` — can
glob-match a whitelisted entry and remove it (see the
counterexample). -/
theorem c1_whitelist_amended :
    (∀ (keepApi : Bool) (items : List FsEntry) (w : String), w ∈ whitelistSimple →
        w ∉ (cleanupDevFiles keepApi items).removedItems)
    ∧ (∀ (globFn : String → List (String × Bool)) (patterns : List String) (x : String),
        x ∈ (processCleanupPatterns globFn patterns whitelistPattern).removedItems →
        ∃ p, p ∈ patterns ∧ isWhitelistedPattern whitelistPattern p = false
          ∧ x ∈ (globFn p).map Prod.fst) := by
  constructor
  · intro keepApi items w hw
    exact cleanupFoldl_whitelist keepApi w hw items ⟨0, 0, []⟩ (by simp)
  · intro globFn patterns x hx
    rcases processCleanupPatterns_mem globFn whitelistPattern patterns ⟨0, 0, []⟩ x hx
      with h | h
    · simp at h
    · exact h

/-- Witness for C1 on a concrete simple-mode directory listing. -/
theorem c1_whitelist_amended_witness :
    ".gitignore"
      ∉ (cleanupDevFiles true
          [⟨".gitignore", false, false⟩, ⟨"docs", true, false⟩,
            ⟨"foo.test.ts", false, false⟩]).removedItems :=
  c1_whitelist_amended.1 true
    [⟨".gitignore", false, false⟩, ⟨"docs", true, false⟩, ⟨"foo.test.ts", false, false⟩]
    ".gitignore" (by decide)

/-! ## Multi-framework download stage (`downloadTemplate`, second variant)

Source (`src/dist/index.js` lines 756-808): create the target
directory; fetch the archive (`DownloadError` on a non-success
response, `NoBody` when the response has no body); create a
timestamp-suffixed scratch directory `temp-<Date.now()>` as a sibling
of the target; inside a `try/finally` whose `finally` removes the
scratch directory: extract the archive into it, check that
`templates/<framework>` exists (throwing the framework-not-found error
otherwise), and recursively copy that subtree into the target; after
the `finally`, sanitize the target.

The run is modelled as the sequence of filesystem/network actions
performed (`DlStep`) plus the thrown error if any (`none` means
success); the external outcomes are the six Boolean oracles. -/

inductive DlError where
  | downloadFailed
  | noBody
  | extractFailed
  | frameworkNotFound
  | copyFailed
  | sanitizeFailed
deriving DecidableEq

inductive DlStep where
  | mkdirTarget
  | fetchRequest
  | mkdirTemp
  | extractRun
  | accessFramework
  | copyRun
  | rmTemp
  | sanitizeRun
deriving DecidableEq

def downloadTemplate (fetchOk hasBody extractOk frameworkPresent copyOk sanitizeOk : Bool) :
    Option DlError × List DlStep :=
  let t0 := [DlStep.mkdirTarget, DlStep.fetchRequest]
  if !fetchOk then (some .downloadFailed, t0)
  else if !hasBody then (some .noBody, t0)
  else
    let t1 := t0 ++ [DlStep.mkdirTemp, DlStep.extractRun]
    if !extractOk then (some .extractFailed, t1 ++ [DlStep.rmTemp])
    else
      let t2 := t1 ++ [DlStep.accessFramework]
      if !frameworkPresent then (some .frameworkNotFound, t2 ++ [DlStep.rmTemp])
      else
        let t3 := t2 ++ [DlStep.copyRun]
        if !copyOk then (some .copyFailed, t3 ++ [DlStep.rmTemp])
        else
          let t4 := t3 ++ [DlStep.rmTemp, DlStep.sanitizeRun]
          if !sanitizeOk then (some .sanitizeFailed, t4) else (none, t4)

/-- C8: whenever the scratch directory is created it is also removed —
on the success path, on extraction failure, on an absent framework
subtree (which yields the framework-not-found error), and on copy
failure; and it is created exactly when the fetch succeeded with a
body. -/
theorem c8_scratch_dir_removed :
    ∀ fetchOk hasBody extractOk frameworkPresent copyOk sanitizeOk : Bool,
      (DlStep.mkdirTemp
          ∈ (downloadTemplate fetchOk hasBody extractOk frameworkPresent copyOk sanitizeOk).2 →
        DlStep.rmTemp
          ∈ (downloadTemplate fetchOk hasBody extractOk frameworkPresent copyOk sanitizeOk).2)
      ∧ (DlStep.mkdirTemp
            ∈ (downloadTemplate fetchOk hasBody extractOk frameworkPresent copyOk sanitizeOk).2
          ↔ fetchOk = true ∧ hasBody = true)
      ∧ (fetchOk = true → hasBody = true → extractOk = true → frameworkPresent = false →
          (downloadTemplate fetchOk hasBody extractOk frameworkPresent copyOk sanitizeOk).1
            = some DlError.frameworkNotFound) := by
  decide

/-- Witness for C8: extraction succeeds but the requested framework
subtree is absent — the scratch directory is still removed and the
framework-not-found error is raised. -/
theorem c8_scratch_dir_removed_witness :
    DlStep.rmTemp ∈ (downloadTemplate true true true false true true).2
      ∧ (downloadTemplate true true true false true true).1
        = some DlError.frameworkNotFound :=
  ⟨(c8_scratch_dir_removed true true true false true true).1 (by decide),
    (c8_scratch_dir_removed true true true false true true).2.2 rfl rfl rfl rfl⟩

/-! ## Orchestrator (`createProject`, single-template dist variant)

Source (`src/dist/index.js` lines 398-513; the multi-framework variant
lines 1009-1158 and `src/unnamed/part_000` lines 182-256 share the same
name-resolution prefix and the same `try/catch` rollback).  The phases:

1. if no project name was given (`undefined` or the falsy empty
   string) and the run is interactive (`process.stdout.isTTY && !yes`),
   prompt; a cancelled prompt exits 1;
2. if the name is still missing: interactive runs merely log an error
   (this point is unreachable — the prompt path either exits or
   produces a non-empty name), non-interactive runs fall back to
   `'my-astro-app'`;
3. kebab-case and validate the name, exiting 1 when invalid; the
   project directory is `path.resolve(kebabProjectName)` (modelled by
   its base name, the kebab name itself);
4. destination check: an existing destination is an overwrite prompt
   when interactive (declining exits 1), an immediate exit 1 otherwise;
5. the `try` block: resolve the reference (`--ref` flag or
   `getLatestTag`, which never throws), download, sanitize, cleanup
   (unless `--no-cleanup`; only a thrown cleanup error propagates),
   rewrite the manifest with the kebab name, install (unless
   `--no-install`); any thrown error reaches the `catch`, which removes
   the destination recursively (best-effort) and exits 1.

External outcomes are oracles in `CreateEnv`; the manifest stage reuses
`updatePackageJson` and the install stage reuses `installDependencies`. -/

structure CreateEnv where
  projectName : Option String
  stdoutTTY : Bool
  yes : Bool
  /-- the prompt's `response.projectName` (`none` for cancel/undefined). -/
  promptName : Option String
  destExists : Bool
  /-- the overwrite prompt's answer (`false` also for cancel). -/
  overwriteAnswer : Bool
  refFlag : Option String
  fetchLatest : FetchOutcome
  downloadOk : Bool
  sanitizeOk : Bool
  noCleanup : Bool
  cleanupOk : Bool
  manifest : ManifestContent
  noInstall : Bool
  pm : PM
  yarnInstallOk : Bool
  npmInstallOk : Bool
  pnpmInstallOk : Bool

structure RunResult where
  /-- `some n` means `process.exit n`; `none` a normal return. -/
  exitCode : Option Nat
  /-- whether the catch-block `fs.rm(projectDir, recursive, force)` ran. -/
  rolledBack : Bool
  /-- base name of the resolved project directory, once known. -/
  projectDirName : Option String
  /-- the name written into the manifest, when that stage succeeded. -/
  manifestNameWritten : Option String

/-- JS falsiness of the optional project-name string (`undefined` or `''`). -/
def jsFalsyName : Option String → Bool
  | none => true
  | some s => s == ""

/-- Phases 1-3: resolve, default and validate the project name,
returning the kebab-cased name or the exit code. -/
def resolveNamePhase (env : CreateEnv) : Except Nat String :=
  let isTTY := env.stdoutTTY && !env.yes
  let afterPrompt : Except Nat (Option String) :=
    if jsFalsyName env.projectName && isTTY then
      if jsFalsyName env.promptName then .error 1 else .ok env.promptName
    else .ok env.projectName
  match afterPrompt with
  | .error n => .error n
  | .ok pn1 =>
    let pn2 := if jsFalsyName pn1 then (if isTTY then pn1 else some "my-astro-app") else pn1
    let kebab := toKebabCase (pn2.getD "")
    if validateProjectName kebab then .ok kebab else .error 1

/-- Phase 4: destination-existence check. -/
def destCheckPhase (env : CreateEnv) : Except Nat Unit :=
  if env.destExists then
    if env.stdoutTTY && !env.yes then
      if env.overwriteAnswer then .ok () else .error 1
    else .error 1
  else .ok ()

/-- Whether the manifest-rewrite stage throws (depends only on the
manifest content, not on the project name). -/
def manifestUpdateFails : ManifestContent → Bool
  | .missing => true
  | .invalid => true
  | .json j => !jsonAssignable j

/-- Phase 5: the `try` block with its `catch` rollback. -/
def pipelinePhase (env : CreateEnv) (kebab : String) : RunResult :=
  let templateRef :=
    match env.refFlag with
    | some r => some r
    | none => (getLatestTag env.fetchLatest).1
  let _ := templateRef
  if env.downloadOk = false then ⟨some 1, true, some kebab, none⟩
  else if env.sanitizeOk = false then ⟨some 1, true, some kebab, none⟩
  else if (!env.noCleanup && !env.cleanupOk) = true then ⟨some 1, true, some kebab, none⟩
  else
    match updatePackageJson env.manifest kebab with
    | .error _ => ⟨some 1, true, some kebab, none⟩
    | .ok _ =>
      if (!env.noInstall
          && ((installDependencies env.pm env.yarnInstallOk env.npmInstallOk
              env.pnpmInstallOk).1 == InstallOutcome.failure)) = true then
        ⟨some 1, true, some kebab, some kebab⟩
      else ⟨none, false, some kebab, some kebab⟩

def createProject (env : CreateEnv) : RunResult :=
  match resolveNamePhase env with
  | .error n => ⟨some n, false, none, none⟩
  | .ok kebab =>
    match destCheckPhase env with
    | .error n => ⟨some n, false, some kebab, none⟩
    | .ok _ => pipelinePhase env kebab

/-- Some pipeline stage after the destination check fails. -/
def stageFails (env : CreateEnv) : Bool :=
  !env.downloadOk || !env.sanitizeOk || (!env.noCleanup && !env.cleanupOk)
    || manifestUpdateFails env.manifest
    || (!env.noInstall
        && ((installDependencies env.pm env.yarnInstallOk env.npmInstallOk
            env.pnpmInstallOk).1 == InstallOutcome.failure))

theorem updatePackageJson_isOk (content : ManifestContent) (name : String) :
    exceptIsOk (updatePackageJson content name) = !manifestUpdateFails content := by
  cases content with
  | missing => rfl
  | invalid => rfl
  | json j => cases j <;> rfl

theorem pipelinePhase_dirName (env : CreateEnv) (kebab : String) :
    (pipelinePhase env kebab).projectDirName = some kebab := by
  unfold pipelinePhase
  dsimp only
  split
  · rfl
  · split
    · rfl
    · split
      · rfl
      · split
        · rfl
        · split <;> rfl

theorem pipelinePhase_manifestName (env : CreateEnv) (kebab : String) :
    (pipelinePhase env kebab).manifestNameWritten = none
      ∨ (pipelinePhase env kebab).manifestNameWritten = some kebab := by
  unfold pipelinePhase
  dsimp only
  split
  · exact Or.inl rfl
  · split
    · exact Or.inl rfl
    · split
      · exact Or.inl rfl
      · split
        · exact Or.inl rfl
        · split <;> exact Or.inr rfl

/-- C2: if name resolution and the destination-existence check pass and
any later stage fails (download/extraction, sanitizing, catastrophic
cleanup failure, manifest rewrite, or dependency install after its
yarn-to-npm fallback), the run reaches the catch block: the destination
directory is removed recursively (best-effort) and the process exits
with code 1, so no partially scaffolded directory is deliberately left
behind. -/
theorem c2_rollback_on_stage_failure (env : CreateEnv) (kebab : String)
    (hname : resolveNamePhase env = .ok kebab)
    (hdest : destCheckPhase env = .ok ())
    (hfail : stageFails env = true) :
    (createProject env).exitCode = some 1 ∧ (createProject env).rolledBack = true := by
  have hcp : createProject env = pipelinePhase env kebab := by
    rw [createProject, hname, hdest]
  rw [hcp]
  by_cases h1 : env.downloadOk = false
  · constructor <;> simp [pipelinePhase, h1]
  · have h1' : env.downloadOk = true := by
      revert h1; cases env.downloadOk <;> simp
    by_cases h2 : env.sanitizeOk = false
    · constructor <;> simp [pipelinePhase, h1', h2]
    · have h2' : env.sanitizeOk = true := by
        revert h2; cases env.sanitizeOk <;> simp
      by_cases h3 : (!env.noCleanup && !env.cleanupOk) = true
      · constructor <;> simp [pipelinePhase, h1', h2', h3]
      · cases hup : updatePackageJson env.manifest kebab with
        | error e => constructor <;> simp [pipelinePhase, h1', h2', h3, hup]
        | ok s =>
          have hmf : manifestUpdateFails env.manifest = false := by
            have hiso := updatePackageJson_isOk env.manifest kebab
            rw [hup] at hiso
            cases hmval : manifestUpdateFails env.manifest
            · rfl
            · rw [hmval] at hiso
              exact absurd hiso (by simp [exceptIsOk])
          have hinst : (!env.noInstall
              && ((installDependencies env.pm env.yarnInstallOk env.npmInstallOk
                  env.pnpmInstallOk).1 == InstallOutcome.failure)) = true := by
            rw [stageFails] at hfail
            simpa [h1', h2', h3, hmf] using hfail
          constructor <;> simp [pipelinePhase, h1', h2', h3, hup, hinst]

/-- Witness for C2: a non-interactive run with a given name whose
download stage fails. -/
theorem c2_rollback_on_stage_failure_witness :
    (createProject
        ⟨some "demo", false, false, none, false, false, some "v1.0.0",
          .netError, false, true, false, true, .json (.obj []), true, .npm,
          true, true, true⟩).exitCode = some 1
      ∧ (createProject
          ⟨some "demo", false, false, none, false, false, some "v1.0.0",
            .netError, false, true, false, true, .json (.obj []), true, .npm,
            true, true, true⟩).rolledBack = true :=
  c2_rollback_on_stage_failure
    ⟨some "demo", false, false, none, false, false, some "v1.0.0",
      .netError, false, true, false, true, .json (.obj []), true, .npm,
      true, true, true⟩
    "demo" rfl rfl (by decide)

/-- C10: with no project name supplied and a non-interactive run
(stdout not a TTY, or auto-accept set), name resolution does not fail:
it produces the default `'my-astro-app'`, which becomes the project
directory's base name, and any manifest name written by the pipeline is
that same default. -/
theorem c10_default_project_name (env : CreateEnv)
    (hmissing : jsFalsyName env.projectName = true)
    (hni : env.stdoutTTY = false ∨ env.yes = true) :
    resolveNamePhase env = .ok "my-astro-app"
      ∧ (env.destExists = false →
          (createProject env).projectDirName = some "my-astro-app"
            ∧ ∀ s, (createProject env).manifestNameWritten = some s →
                s = "my-astro-app") := by
  have hTTY : (env.stdoutTTY && !env.yes) = false := by
    rcases hni with h | h <;> simp [h]
  have hname : resolveNamePhase env = .ok "my-astro-app" := by
    have hkk : toKebabCase "my-astro-app" = "my-astro-app" := by decide
    have hkv : validateProjectName "my-astro-app" = true := by decide
    simp [resolveNamePhase, hTTY, hmissing, hkk, hkv]
  refine ⟨hname, fun hdest => ?_⟩
  have hdestOk : destCheckPhase env = .ok () := by
    rw [destCheckPhase, if_neg (by rw [hdest]; simp)]
  have hcp : createProject env = pipelinePhase env "my-astro-app" := by
    rw [createProject, hname, hdestOk]
  rw [hcp]
  refine ⟨pipelinePhase_dirName env "my-astro-app", fun s hs => ?_⟩
  rcases pipelinePhase_manifestName env "my-astro-app" with h | h
  · rw [h] at hs; cases hs
  · rw [h] at hs
    cases hs
    rfl

/-- Witness for C10: no name, non-TTY stdout, fresh destination, all
stages healthy. -/
theorem c10_default_project_name_witness :
    resolveNamePhase
        ⟨none, false, false, none, false, false, none,
          .response true (.parsed (some "v1.0.0")), true, true, false, true,
          .json (.obj [("name", .str "template")]), false, .npm,
          true, true, true⟩ = .ok "my-astro-app" :=
  (c10_default_project_name
    ⟨none, false, false, none, false, false, none,
      .response true (.parsed (some "v1.0.0")), true, true, false, true,
      .json (.obj [("name", .str "template")]), false, .npm,
      true, true, true⟩
    (by decide) (Or.inl rfl)).1

end CreateAstro
